import Mathlib

/-!
# Verification of the `domain` authoritative-zone core

Shallow embedding of `src/server/zones.rs` (label trie, `Zone`,
`AuthoritativeZones`, `Records`/`RRset`) and `src/master/reader.rs`
(`Reader`, `FileReaderIter`), together with theorems settling the
specification claims.

Rust `HashMap`s become association lists, `&mut` mutation becomes
state passing (each operation returns its result together with the
updated value), and machine integers become `Nat` (no arithmetic in
the modelled code can overflow a `u32`/`u16` other than by input).

Types that live in modules not present in the extract
(`bits::name`, `rdata`, `master::entry`, `master::scanner`) are
modelled from the spec; each such definition says so in its doc
comment.
-/

set_option autoImplicit false

namespace Domain

/-- Modelled from the spec: one unit of trie descent (`bits::name::Labelette`,
module not in the extract): a `Normal` label of bytes, or one bit of a
binary label.  Bytes are `List Nat`. -/
inductive Labelette where
  | normal (bytes : List Nat)
  | bit (b : Bool)
  deriving DecidableEq, Repr

/-- Modelled from the spec: a domain name, represented by its labelettes in
root-first order with the leading root labelette `Normal(b"")` left
implicit (it is what `labelettes().rev()` always yields first). -/
abbrev Name := List Labelette

/-- Modelled from the spec: `name.labelettes().rev()` — the root-first
labelette sequence of a name, starting with the root labelette. -/
def revLabelettes (n : Name) : List Labelette :=
  Labelette.normal [] :: n

/-- DNS CLASS (`src/iana/class.rs`): the `int_enum!` wraps a `u16`; the
named variants given in the source plus the catch-all numeric variant. -/
inductive Class where
  | In
  | Ch
  | Hs
  | noneC
  | anyC
  | int (v : Nat)
  deriving DecidableEq, Repr

/-- Modelled from the spec: record types are a `u16` enum
(`iana::Rtype`, module not in the extract); only equality of tags
matters to the verified code. -/
abbrev Rtype := Nat

/-- Modelled from the spec: RDATA "assumed available as a tagged value
`MasterRecordData` carrying the RRTYPE tag" (`rdata` module not in the
extract).  `payload` stands for the opaque record data. -/
structure MasterRecordData where
  rtype : Rtype
  payload : Nat
  deriving DecidableEq, Repr

/-- A trie node (`Node<V>` in `zones.rs`): a value plus children indexed
by labelette — an association list for `Normal` labels (the source's
`HashMap<Vec<u8>, Node<V>>`) and two optional slots for the binary
labels. -/
inductive Node (V : Type) where
  | mk (value : V) (normal : List (List Nat × Node V))
       (bit0 : Option (Node V)) (bit1 : Option (Node V))

namespace Node

variable {V : Type}

/-- Source `Node::new` -/
def new (value : V) : Node V := .mk value [] none none

/-- Source `Node::value` -/
def value : Node V → V
  | .mk v _ _ _ => v

/-- The `Normal`-label child map. -/
def normal : Node V → List (List Nat × Node V)
  | .mk _ m _ _ => m

/-- The `Bit(false)` child slot. -/
def bit0 : Node V → Option (Node V)
  | .mk _ _ b _ => b

/-- The `Bit(true)` child slot. -/
def bit1 : Node V → Option (Node V)
  | .mk _ _ _ b => b

/-- Lookup in the `Normal` child map (`NodeChildren::get`, normal arm). -/
def findNormal (k : List Nat) : List (List Nat × Node V) → Option (Node V)
  | [] => none
  | (k', n) :: rest => if k' = k then some n else findNormal k rest

/-- Update-or-append in the `Normal` child map (the effect of the
source's `entry(bytes).or_insert` / `get_mut`). -/
def setNormal (k : List Nat) (c : Node V) :
    List (List Nat × Node V) → List (List Nat × Node V)
  | [] => [(k, c)]
  | (k', n) :: rest =>
      if k' = k then (k, c) :: rest else (k', n) :: setNormal k c rest

/-- Source `NodeChildren::get` / `Node::get_child`. -/
def getChild (node : Node V) (l : Labelette) : Option (Node V) :=
  match l with
  | .normal bytes => findNormal bytes node.normal
  | .bit false => node.bit0
  | .bit true => node.bit1

/-- Write a child back under labelette `l` (the persistent effect of the
source mutating the child returned by `NodeChildren::build`). -/
def setChild (node : Node V) (l : Labelette) (c : Node V) : Node V :=
  match node, l with
  | .mk v m b0 b1, .normal bytes => .mk v (setNormal bytes c m) b0 b1
  | .mk v m _ b1, .bit false => .mk v m (some c) b1
  | .mk v m b0 _, .bit true => .mk v m b0 (some c)

/-- Exact-path lookup: follow `get_child` along the labelette list. -/
def getNode : Node V → List Labelette → Option (Node V)
  | node, [] => some node
  | node, l :: rest =>
      match node.getChild l with
      | some c => getNode c rest
      | none => none

/-- The node that `build_node` with the infallible `|_| Ok(mk)` insert
operation hands to its caller: follow the path, materialising missing
nodes with value `mk`. -/
def reach (mk : V) : Node V → List Labelette → Node V
  | node, [] => node
  | node, l :: rest =>
      match node.getChild l with
      | some c => reach mk c rest
      | none => reach mk (Node.new mk) rest

/-- The get-or-create walk along the labelettes in the given
(front-to-back) order with the infallible initial value `mk`, followed
by a terminal operation `f` on the node reached: the shape of `Zone`'s
own `build_node` (a `for` loop over `build_child`) followed by the
source's mutation of the returned node.  Returns `f`'s result and the
updated tree; the path built on the way persists even when `f` reports
an error, as it does in the source. -/
def buildApply {α : Type} (mk : V) (f : Node V → α × Node V) :
    Node V → List Labelette → α × Node V
  | node, [] => f node
  | node, l :: rest =>
      let child := (node.getChild l).getD (Node.new mk)
      let (a, child') := buildApply mk f child rest
      (a, node.setChild l child')

/-- Source `Node::build_node` (zones.rs lines 404–419) with the
infallible insert operation `|_| Ok(mk)` and a terminal operation `f`:
the source recurses on `iter.next_back()`, consuming the labelette
iterator from the BACK, so the path is built in the reverse of the
iterator's order — on a list, `buildApply` along the reversed list. -/
def buildNode {α : Type} (mk : V) (f : Node V → α × Node V)
    (node : Node V) (iter : List Labelette) : α × Node V :=
  buildApply mk f node iter.reverse

end Node

/-- Source `RRset<D>` (`zones.rs`): a TTL plus the record data; a fresh RRset
has `ttl = 0`, which the source uses as the "unset" sentinel. -/
structure RRset (D : Type) where
  ttl : Nat
  data : List D
  deriving DecidableEq, Repr

namespace RRset

/-- Source `RRset::new` -/
def new {D : Type} : RRset D := ⟨0, []⟩

/-- Source `RRset::push` -/
def push {D : Type} (r : RRset D) (d : D) : RRset D :=
  { r with data := r.data ++ [d] }

end RRset

/-- Source `Records` (`zones.rs`): the per-node map `Rtype → RRset`, the
source's `HashMap` as an association list. -/
structure Records where
  rrsets : List (Rtype × RRset MasterRecordData)
  deriving DecidableEq, Repr

namespace Records

/-- Source `Records::new` -/
def new : Records := ⟨[]⟩

/-- Association-list lookup standing for `HashMap::get`. -/
def findRt (rt : Rtype) :
    List (Rtype × RRset MasterRecordData) → Option (RRset MasterRecordData)
  | [] => none
  | (rt', rs) :: rest => if rt' = rt then some rs else findRt rt rest

/-- Association-list update-or-append standing for the effect of
`HashMap::entry(..).or_insert_with(..)` plus in-place mutation. -/
def setRt (rt : Rtype) (rs : RRset MasterRecordData) :
    List (Rtype × RRset MasterRecordData) →
    List (Rtype × RRset MasterRecordData)
  | [] => [(rt, rs)]
  | (rt', rs') :: rest =>
      if rt' = rt then (rt, rs) :: rest else (rt', rs') :: setRt rt rs rest

/-- Source `Records::get` -/
def get (r : Records) (rt : Rtype) : Option (RRset MasterRecordData) :=
  findRt rt r.rrsets

/-- Source `Records::add_record`: look up or create the RRset for the data's
rtype; if its TTL is the unset sentinel `0`, set it to `ttl`; else if it
differs from `ttl`, fail (TtlMismatch) leaving the RRset as it was;
otherwise push the data.  Returns the result with the updated map
(state passing for the source's `&mut self`). -/
def add_record (r : Records) (ttl : Nat) (data : MasterRecordData) :
    Except Unit Unit × Records :=
  let rrset := (findRt data.rtype r.rrsets).getD RRset.new
  if rrset.ttl = 0 then
    (.ok (), ⟨setRt data.rtype ((RRset.push { rrset with ttl := ttl } data)) r.rrsets⟩)
  else if rrset.ttl ≠ ttl then
    (.error (), ⟨setRt data.rtype rrset r.rrsets⟩)
  else
    (.ok (), ⟨setRt data.rtype (rrset.push data) r.rrsets⟩)

end Records

/-- Modelled from the spec: the RDATA of an NS record is a domain name
(`rdata::owned::Ns`, module not in the extract). -/
abbrev Ns := Name

/-- Source `MasterRecord` (`master/record.rs`, not in the extract).  Modelled
from the spec: "Fully-resolved record yielded by the reader:
`{ owner, class, ttl, rdata }`". -/
structure MasterRecord where
  owner : Name
  class_ : Class
  ttl : Nat
  rdata : MasterRecordData
  deriving DecidableEq, Repr

/-- Source `Cut` (`zones.rs`): a delegation — NS RRset plus glue records.
`Record<DNameBuf, MasterRecordData>` is modelled by `MasterRecord`. -/
structure Cut where
  ns : RRset Ns
  glue : List MasterRecord
  deriving DecidableEq, Repr

namespace Cut

/-- Source `Cut::new` -/
def new : Cut := ⟨RRset.new, []⟩

end Cut

/-- Source `Entry<A, C>` (`zones.rs`). -/
inductive Entry (A C : Type) where
  | authoritative (a : A)
  | cut (c : C)
  deriving DecidableEq, Repr

/-- Source `type ZoneEntry = Entry<Records, Cut>` -/
abbrev ZoneEntry := Entry Records Cut

/-- Source `Zone` (`zones.rs`): a trie whose node values are optional zone
entries. -/
structure Zone where
  data : Node (Option ZoneEntry)

namespace Zone

/-- Source `Zone::new` -/
def new : Zone := ⟨Node.new none⟩

/-- The terminal operation of `Zone::add_record` on the node that
`build_node` returns: promote an empty value to
`Authoritative(Records::new())`, then delegate to `Records::add_record`;
a `Cut` value fails (CutConflict) and is left in place. -/
def addRecordAt (ttl : Nat) (data : MasterRecordData)
    (node : Node (Option ZoneEntry)) :
    Except Unit Unit × Node (Option ZoneEntry) :=
  match node.value with
  | none =>
      let (res, recs) := Records.new.add_record ttl data
      (res, match node with
            | .mk _ m b0 b1 => .mk (some (.authoritative recs)) m b0 b1)
  | some (.authoritative recs) =>
      let (res, recs') := recs.add_record ttl data
      (res, match node with
            | .mk _ m b0 b1 => .mk (some (.authoritative recs')) m b0 b1)
  | some (.cut _) => (.error (), node)

/-- Source `Zone::add_record`: `build_node` along the root-first labelettes of
the relative name (creating value-`None` nodes), then `addRecordAt` at
the terminal node. -/
def add_record (z : Zone) (name : Name) (ttl : Nat)
    (data : MasterRecordData) : Except Unit Unit × Zone :=
  let (res, data') := Node.buildApply none (addRecordAt ttl data) z.data name
  (res, ⟨data'⟩)

/-- The terminal operation of `Zone::add_cut`: promote an empty value to
`Cut(Cut::new())`; an `Authoritative` value fails (AuthConflict) and is
left in place.  The source returns `&mut Cut` on success; the model
returns the cut. -/
def addCutAt (node : Node (Option ZoneEntry)) :
    Except Unit Cut × Node (Option ZoneEntry) :=
  match node.value with
  | none =>
      (.ok Cut.new, match node with
                    | .mk _ m b0 b1 => .mk (some (.cut Cut.new)) m b0 b1)
  | some (.authoritative _) => (.error (), node)
  | some (.cut c) => (.ok c, node)

/-- Source `Zone::add_cut` -/
def add_cut (z : Zone) (name : Name) : Except Unit Cut × Zone :=
  let (res, data') := Node.buildApply none addCutAt z.data name
  (res, ⟨data'⟩)

end Zone

/-- The value-match at the end of `Zone::query`, applied to the node the
descent reached. -/
def entryAt (node : Node (Option ZoneEntry)) (rtype : Rtype) :
    Option (Entry (Option (RRset MasterRecordData)) Cut) :=
  match node.value with
  | some (.authoritative recs) => some (.authoritative (recs.get rtype))
  | some (.cut c) => some (.cut c)
  | none => some (.authoritative none)

/-- The descent loop of `Zone::query`: follow exact children; on a miss
fall back to the wildcard child `Normal(b"*")` and stop consuming
labelettes (`break`); with neither, `None` (NXDOMAIN). -/
def queryLoop (node : Node (Option ZoneEntry)) (iter : List Labelette)
    (rtype : Rtype) : Option (Entry (Option (RRset MasterRecordData)) Cut) :=
  match iter with
  | [] => entryAt node rtype
  | l :: rest =>
      match node.getChild l with
      | some child => queryLoop child rest rtype
      | none =>
          match node.getChild (.normal [42]) with
          | some child => entryAt child rtype
          | none => none

/-- Source `Zone::query` -/
def Zone.query (z : Zone) (iter : List Labelette) (rtype : Rtype) :
    Option (Entry (Option (RRset MasterRecordData)) Cut) :=
  queryLoop z.data iter rtype

/-- Modelled from the spec: `DNameBuf::strip_suffix` (in `bits::name`,
not in the extract): strip the zone name off the record owner, failing
when the zone name is not a suffix of the owner.  In root-first
labelette order, a display-order suffix is a list prefix. -/
def stripSuffix (owner zoneName : Name) : Except Unit Name :=
  if zoneName <+: owner then .ok (owner.drop zoneName.length)
  else .error ()

/-- Source `AuthoritativeZones` (`zones.rs`): the dedicated IN-class root tree
plus the map for all other classes (association list for the source's
`HashMap`). -/
structure AuthoritativeZones where
  in_root : Node (Option Zone)
  roots : List (Class × Node (Option Zone))

namespace AuthoritativeZones

/-- Source `AuthoritativeZones::new` -/
def new : AuthoritativeZones := ⟨Node.new none, []⟩

/-- Association-list lookup standing for `HashMap::get` on `roots`. -/
def findRoot (c : Class) :
    List (Class × Node (Option Zone)) → Option (Node (Option Zone))
  | [] => none
  | (c', n) :: rest => if c' = c then some n else findRoot c rest

/-- Association-list update-or-append for `roots`. -/
def setRootList (c : Class) (n : Node (Option Zone)) :
    List (Class × Node (Option Zone)) → List (Class × Node (Option Zone))
  | [] => [(c, n)]
  | (c', n') :: rest =>
      if c' = c then (c, n) :: rest else (c', n') :: setRootList c n rest

/-- Source `AuthoritativeZones::root` -/
def root (az : AuthoritativeZones) (c : Class) : Option (Node (Option Zone)) :=
  if c = Class.In then some az.in_root else findRoot c az.roots

/-- The read half of `AuthoritativeZones::root_mut`: the class root,
materialising an empty one for a class not yet present
(`entry(class).or_insert_with(|| Node::new(None))`). -/
def rootOrNew (az : AuthoritativeZones) (c : Class) : Node (Option Zone) :=
  if c = Class.In then az.in_root
  else (findRoot c az.roots).getD (Node.new none)

/-- The write half of `AuthoritativeZones::root_mut`: store the updated
class root back. -/
def setRoot (az : AuthoritativeZones) (c : Class) (n : Node (Option Zone)) :
    AuthoritativeZones :=
  if c = Class.In then { az with in_root := n }
  else { az with roots := setRootList c n az.roots }

/-- The terminal operation of `add_zone` on the apex node: the slot must
be empty (`ZoneExists` otherwise), then the zone is installed. -/
def addZoneAt (zone : Zone) (node : Node (Option Zone)) :
    Except Unit Unit × Node (Option Zone) :=
  match node with
  | .mk v m b0 b1 =>
      match v with
      | some _ => (.error (), .mk v m b0 b1)
      | none => (.ok (), .mk (some zone) m b0 b1)

/-- Source `AuthoritativeZones::add_zone`: assert the leading root labelette
and skip it (the non-root branch models the `assert!` panic as a
failure, unreachable for labelettes of a real name), then
`Node::build_node` down the class root (creating value-`None` nodes)
and install at the node reached.  `build_node` consumes the iterator
with `next_back()`, so the path is walked in the REVERSE of the
root-first iterator order — leaf-most labelette first.  State passing:
the path nodes built — and a class root created by `root_mut` —
persist even when installation fails, as in the source. -/
def add_zone (az : AuthoritativeZones) (name : List Labelette) (c : Class)
    (zone : Zone) : Except Unit Unit × AuthoritativeZones :=
  match name with
  | .normal [] :: iter =>
      let (res, root') :=
        Node.buildNode none (addZoneAt zone) (az.rootOrNew c) iter
      (res, az.setRoot c root')
  | _ => (.error (), az)

/-- The loop of `AuthoritativeZones::find`: walk the class-root trie
along the labelettes, remembering the deepest node carrying a zone
together with the iterator position just past it; stop at a missing
child or at the end of the labelettes. -/
def findLoop (node : Node (Option Zone)) (iter : List Labelette)
    (apex : Option (Zone × List Labelette)) :
    Option (Zone × List Labelette) :=
  let apex' := match node.value with
               | some z => some (z, iter)
               | none => apex
  match iter with
  | [] => apex'
  | l :: rest =>
      match node.getChild l with
      | some child => findLoop child rest apex'
      | none => apex'

/-- Source `AuthoritativeZones::find`: assert-and-skip the root labelette (the
non-root branch models the `assert!` panic, unreachable for labelettes
of a real name), fetch the class root (`None` when the class has none),
then run the walk. -/
def find (az : AuthoritativeZones) (c : Class) (iter : List Labelette) :
    Option (Zone × List Labelette) :=
  match iter with
  | .normal [] :: rest =>
      match az.root c with
      | some node => findLoop node rest none
      | none => none
  | _ => none

/-- The record-draining loop of `AuthoritativeZones::load_zone`
(`zones.rs` lines 56–77): scan errors from the iterator are pushed onto
`errs`; a failing `strip_suffix` and a failing `Zone::add_record` hit
the `// XXX push error` arms, which merely `continue` without recording
anything.  `E` is the iterator's error type. -/
def loadZoneLoop {E : Type} (zoneName : Name) :
    List (Except E MasterRecord) → Zone → List E → Zone × List E
  | [], zone, errs => (zone, errs)
  | .ok record :: rest, zone, errs =>
      match stripSuffix record.owner zoneName with
      | .ok rel =>
          let (_, zone') := zone.add_record rel record.ttl record.rdata
          loadZoneLoop zoneName rest zone' errs
      | .error _ => loadZoneLoop zoneName rest zone errs
  | .error e :: rest, zone, errs =>
      loadZoneLoop zoneName rest zone (errs ++ [e])

/-- Source `AuthoritativeZones::load_zone`: drain the record iterator into a
fresh `Zone`; if `errs` stayed empty, install the zone via `add_zone`,
else fail.  The iterator is modelled by the list of results it yields. -/
def load_zone {E : Type} (az : AuthoritativeZones) (name : Name) (c : Class)
    (records : List (Except E MasterRecord)) :
    Except Unit Unit × AuthoritativeZones :=
  let (zone, errs) := loadZoneLoop name records Zone.new []
  if errs.isEmpty then az.add_zone (revLabelettes name) c zone
  else (.error (), az)

end AuthoritativeZones

namespace Master

/-- Scan errors (`master::error::ScanError`, not in the extract).
Modelled from the spec: a scanner-produced error is opaque (`raw`); the
entry parser rejects an unqualified name with no `$ORIGIN`, a missing
owner with no previous record, and a missing TTL with no default. -/
inductive ScanErr where
  | raw (n : Nat)
  | relNoOrigin
  | noOwner
  | noTtl
  deriving DecidableEq, Repr

/-- Modelled from the spec: a name as written in a master file — a
trailing `.` means absolute, `@` means the current origin, otherwise
the name is relative to the origin. -/
inductive RawName where
  | abs (n : Name)
  | rel (n : Name)
  | atOrigin
  deriving DecidableEq, Repr

/-- Modelled from the spec: one tokenised master-file entry as the
scanner delivers it to the entry parser, before owner/class/TTL
resolution.  The include path is a relative path, already split into
components. -/
inductive RawEntry where
  | originE (n : Name)
  | ttlE (t : Nat)
  | includeE (path : List String) (origin : Option Name)
  | control
  | recordE (owner : Option RawName) (class_ : Option Class)
            (ttl : Option Nat) (rdata : MasterRecordData)
  | blank
  deriving DecidableEq, Repr

/-- Source `master::entry::Entry` (not in the extract): the variants the
reader loop in `reader.rs` matches on. -/
inductive Entry where
  | origin (n : Name)
  | includeE (path : List String) (origin : Option Name)
  | ttl (t : Nat)
  | control
  | record (r : MasterRecord)
  | blank
  deriving DecidableEq, Repr

/-- Modelled from the spec: resolve a raw name against the current
origin — absolute names stand; `@` is the origin; a relative name is
suffixed with the origin (in root-first labelette order the origin
comes first), failing when the origin is unset. -/
def resolveName (rn : RawName) (origin : Option Name) :
    Except ScanErr Name :=
  match rn with
  | .abs n => .ok n
  | .rel n =>
      match origin with
      | some o => .ok (o ++ n)
      | none => .error .relNoOrigin
  | .atOrigin =>
      match origin with
      | some o => .ok o
      | none => .error .relNoOrigin

/-- Source `Entry::scan` (not in the extract), modelled from the spec:
resolve the owner (inheriting `last_owner` when missing), the class
(inheriting `last_class`, defaulting to IN), and the TTL (using the
current default, rejecting when there is none). -/
def scanEntry (raw : RawEntry) (lastOwner : Option Name)
    (lastClass : Option Class) (origin : Option Name) (ttl : Option Nat) :
    Except ScanErr Entry :=
  match raw with
  | .originE n => .ok (.origin n)
  | .ttlE t => .ok (.ttl t)
  | .includeE p o => .ok (.includeE p o)
  | .control => .ok .control
  | .blank => .ok .blank
  | .recordE ow cl t rd => do
      let owner ← match ow with
                  | some rn => resolveName rn origin
                  | none =>
                      match lastOwner with
                      | some n => .ok n
                      | none => .error .noOwner
      let cls := cl.getD (lastClass.getD Class.In)
      let ttlv ← match t.orElse (fun _ => ttl) with
                 | some v => Except.ok v
                 | none => .error .noTtl
      .ok (.record ⟨owner, cls, ttlv, rd⟩)

/-- Source `ReaderItem` (`reader.rs`). -/
inductive ReaderItem where
  | record (r : MasterRecord)
  | includeI (path : List String) (origin : Option Name)
  deriving DecidableEq, Repr

/-- Source `Reader<S>` (`reader.rs`): the optional scanner (dropped on error)
plus the carry-forward state.  The scanner is modelled by the list of
results `Entry::scan` would draw from it; an exhausted list is the
scanner's end-of-input `Ok(None)`. -/
structure Reader where
  scanner : Option (List (Except ScanErr RawEntry))
  origin : Option Name
  ttl : Option Nat
  last : Option (Name × Class)

namespace Reader

/-- Source `Reader::new` -/
def new (content : List (Except ScanErr RawEntry)) : Reader :=
  ⟨some content, none, none, none⟩

/-- Source `Reader::set_origin` -/
def set_origin (r : Reader) (origin : Option Name) : Reader :=
  { r with origin := origin }

/-- Source `Reader::last_owner` -/
def last_owner (r : Reader) : Option Name :=
  r.last.map Prod.fst

/-- Source `Reader::last_class` -/
def last_class (r : Reader) : Option Class :=
  r.last.map Prod.snd

/-- The loop of `Reader::next_record`, recursing on the remaining
scanner output: `$ORIGIN` and `$TTL` update the carry-forward state and
loop; `Include` and `Record` surface; `Control` and `Blank` loop; an
error from the scanner or the entry parser drops the scanner and
surfaces. -/
def nextRecordGo (origin : Option Name) (ttl : Option Nat)
    (last : Option (Name × Class)) :
    List (Except ScanErr RawEntry) →
    Except ScanErr (Option ReaderItem) × Reader
  | [] => (.ok none, ⟨some [], origin, ttl, last⟩)
  | x :: rest =>
      match x with
      | .error e => (.error e, ⟨none, origin, ttl, last⟩)
      | .ok raw =>
          match scanEntry raw (last.map Prod.fst) (last.map Prod.snd)
                          origin ttl with
          | .error e => (.error e, ⟨none, origin, ttl, last⟩)
          | .ok (.origin o) => nextRecordGo (some o) ttl last rest
          | .ok (.ttl t) => nextRecordGo origin (some t) last rest
          | .ok (.includeE p o) =>
              (.ok (some (.includeI p o)), ⟨some rest, origin, ttl, last⟩)
          | .ok .control => nextRecordGo origin ttl last rest
          | .ok (.record rec) =>
              (.ok (some (.record rec)),
               ⟨some rest, origin, ttl, some (rec.owner, rec.class_)⟩)
          | .ok .blank => nextRecordGo origin ttl last rest

/-- Source `Reader::next_record`: with the scanner gone, end-of-stream;
otherwise run the loop. -/
def next_record (r : Reader) : Except ScanErr (Option ReaderItem) × Reader :=
  match r.scanner with
  | none => (.ok none, r)
  | some l => nextRecordGo r.origin r.ttl r.last l

/-- Source `impl Iterator for Reader`: `next` via `next_record`. -/
def next (r : Reader) : Option (Except ScanErr ReaderItem) × Reader :=
  match r.next_record with
  | (.ok (some item), r') => (some (.ok item), r')
  | (.ok none, r') => (none, r')
  | (.error e, r') => (some (.error e), r')

end Reader

/-- A file path, modelled from the spec as its list of components
(`std::path` is outside the program). -/
abbrev FsPath := List String

/-- The filesystem seen by `FileReader::open`, modelled as a map from
path to scanner content. -/
abbrev Fs := List (FsPath × List (Except ScanErr RawEntry))

/-- Filesystem lookup standing for `FileReader::open`. -/
def openFile (fs : Fs) (p : FsPath) :
    Option (List (Except ScanErr RawEntry)) :=
  match fs with
  | [] => none
  | (p', c) :: rest => if p' = p then some c else openFile rest p

/-- Source `FileReaderError` (`reader.rs`): the offending path plus the error —
a scan error from a reader, or an open failure (`io::Error`). -/
inductive FRIError where
  | scan (path : FsPath) (e : ScanErr)
  | ioOpen (path : FsPath)
  deriving DecidableEq, Repr

/-- The stack of `FileReaderIter` (`reader.rs`): `(path, reader)` pairs;
the head of the list is the top of the stack (the source's
`stack.last`). -/
abbrev FRIStack := List (FsPath × Reader)

/-- Source `FileReaderIter::next`: pull from the top reader; a `Record`
surfaces; an `Include` resolves its path against the including file's
directory (`name.parent().join(path)` — drop the file component,
append the relative components), opens it, sets its origin and pushes;
end-of-stream pops; an error (scan, or failed open) clears the stack
and surfaces.  `fuel` bounds the loop (include chains can recurse
without bound — the source performs no cycle detection); `none` means
the fuel ran out before the call returned. -/
def friNext (fs : Fs) : Nat → FRIStack →
    Option (Option (Except FRIError MasterRecord) × FRIStack)
  | 0, _ => none
  | _ + 1, [] => some (none, [])
  | fuel + 1, (name, reader) :: rest =>
      match reader.next_record with
      | (.ok (some (.record rec)), reader') =>
          some (some (.ok rec), (name, reader') :: rest)
      | (.ok (some (.includeI path origin)), reader') =>
          let full := name.dropLast ++ path
          match openFile fs full with
          | some content =>
              friNext fs fuel
                ((full, (Reader.new content).set_origin origin) ::
                 (name, reader') :: rest)
          | none => some (some (.error (.ioOpen full)), [])
      | (.ok none, _) => friNext fs fuel rest
      | (.error e, _) => some (some (.error (.scan name e)), [])

end Master

/-! ## Lemmas about the label trie -/

namespace Node

variable {V : Type} {α : Type}

theorem findNormal_setNormal (k : List Nat) (c : Node V)
    (m : List (List Nat × Node V)) :
    findNormal k (setNormal k c m) = some c := by
  induction m with
  | nil => simp [setNormal, findNormal]
  | cons hd tl ih =>
      obtain ⟨k', n⟩ := hd
      by_cases h : k' = k <;> simp [setNormal, findNormal, h, ih]

theorem getChild_setChild (n : Node V) (l : Labelette) (c : Node V) :
    (n.setChild l c).getChild l = some c := by
  obtain ⟨v, m, b0, b1⟩ := n
  cases l with
  | normal bytes => simp [setChild, getChild, normal, findNormal_setNormal]
  | bit b => cases b <;> simp [setChild, getChild, bit0, bit1]

theorem getNode_append (p : List Labelette) {n m : Node V}
    (q : List Labelette) (h : getNode n p = some m) :
    getNode n (p ++ q) = getNode m q := by
  induction p generalizing n with
  | nil => simp [getNode] at h; subst h; rfl
  | cons l rest ih =>
      simp only [getNode] at h ⊢
      cases hc : n.getChild l with
      | none => simp [hc] at h
      | some c => rw [hc] at h; simp only [List.cons_append, getNode, hc]
                  exact ih h

theorem reach_of_getNode (mk : V) (p : List Labelette) {n m : Node V}
    (h : getNode n p = some m) : reach mk n p = m := by
  induction p generalizing n with
  | nil => simp [getNode] at h; simp [reach, h]
  | cons l rest ih =>
      simp only [getNode] at h
      cases hc : n.getChild l with
      | none => simp [hc] at h
      | some c => rw [hc] at h; simp only [reach, hc]; exact ih h

theorem buildApply_cons (mk : V) (f : Node V → α × Node V) (n : Node V)
    (l : Labelette) (rest : List Labelette) :
    buildApply mk f n (l :: rest) =
      ((buildApply mk f ((n.getChild l).getD (Node.new mk)) rest).1,
       n.setChild l (buildApply mk f ((n.getChild l).getD (Node.new mk)) rest).2) :=
  rfl

theorem buildApply_fst (mk : V) (f : Node V → α × Node V)
    (p : List Labelette) (n : Node V) :
    (buildApply mk f n p).1 = (f (reach mk n p)).1 := by
  induction p generalizing n with
  | nil => rfl
  | cons l rest ih =>
      rw [buildApply_cons]
      cases hc : n.getChild l with
      | none => simp [reach, hc, ih]
      | some c => simp [reach, hc, ih]

theorem getNode_buildApply (mk : V) (f : Node V → α × Node V)
    (p : List Labelette) (n : Node V) :
    getNode (buildApply mk f n p).2 p = some (f (reach mk n p)).2 := by
  induction p generalizing n with
  | nil => rfl
  | cons l rest ih =>
      rw [buildApply_cons]
      simp only [getNode, getChild_setChild]
      cases hc : n.getChild l with
      | none => simp [reach, hc, ih]
      | some c => simp [reach, hc, ih]

/-- The value stored at an exact path, `None` when the path does not
exist. -/
def valueAt {W : Type} (n : Node (Option W)) (p : List Labelette) :
    Option W :=
  match getNode n p with
  | some m => m.value
  | none => none

theorem valueAt_of_getNode {W : Type} {n m : Node (Option W)}
    {p : List Labelette} (h : getNode n p = some m) :
    n.valueAt p = m.value := by
  simp [valueAt, h]

theorem valueAt_cons {W : Type} (n : Node (Option W)) (l : Labelette)
    (p : List Labelette) :
    n.valueAt (l :: p) =
      match n.getChild l with
      | some c => c.valueAt p
      | none => none := by
  cases hc : n.getChild l <;> simp [valueAt, getNode, hc]

end Node

/-! ## Lemmas about `AuthoritativeZones::find` -/

namespace AuthoritativeZones

/-- Proof helper: the accumulator-free form of the `find` walk — the
deepest node along the exact-child path that carries a zone wins. -/
def deepFindGo : Node (Option Zone) → List Labelette →
    Option (Zone × List Labelette)
  | node, [] =>
      match node.value with
      | some z => some (z, [])
      | none => none
  | node, l :: rest =>
      let here := match node.value with
                  | some z => some (z, l :: rest)
                  | none => none
      match node.getChild l with
      | some c => (deepFindGo c rest).or here
      | none => here

theorem findLoop_eq (iter : List Labelette) (node : Node (Option Zone))
    (apex : Option (Zone × List Labelette)) :
    findLoop node iter apex = (deepFindGo node iter).or apex := by
  induction iter generalizing node apex with
  | nil =>
      cases hv : node.value <;> simp [findLoop, deepFindGo, hv]
  | cons l rest ih =>
      cases hv : node.value <;> cases hc : node.getChild l <;>
        simp [findLoop, deepFindGo, hv, hc, ih, Option.or_assoc]

theorem deepFindGo_nil (node : Node (Option Zone)) :
    deepFindGo node [] =
      match node.value with
      | some z => some (z, [])
      | none => none := rfl

theorem deepFindGo_cons (node : Node (Option Zone)) (l : Labelette)
    (rest : List Labelette) :
    deepFindGo node (l :: rest) =
      match node.getChild l with
      | some c =>
          (deepFindGo c rest).or
            (match node.value with
             | some z => some (z, l :: rest)
             | none => none)
      | none =>
          match node.value with
          | some z => some (z, l :: rest)
          | none => none := rfl

/-- The `here` fallback of one `deepFindGo` step, as its own lemma. -/
theorem deepFindGo_here_eq (node : Node (Option Zone)) (l : Labelette)
    (tl : List Labelette) {z : Zone} {rest : List Labelette}
    (h : (match node.value with
          | some z' => some (z', l :: tl)
          | none => (none : Option (Zone × List Labelette))) =
             some (z, rest)) :
    node.value = some z ∧ rest = l :: tl := by
  cases hv : node.value <;> rw [hv] at h <;> simp_all

theorem deepFindGo_length (iter : List Labelette) (node : Node (Option Zone))
    {z : Zone} {rest : List Labelette}
    (h : deepFindGo node iter = some (z, rest)) :
    rest.length ≤ iter.length := by
  induction iter generalizing node with
  | nil =>
      rw [deepFindGo_nil] at h
      cases hv : node.value with
      | none => simp only [hv] at h; exact absurd h (by simp)
      | some z' =>
          simp only [hv, Option.some.injEq, Prod.mk.injEq] at h
          simp [← h.2]
  | cons l tl ih =>
      rw [deepFindGo_cons] at h
      cases hc : node.getChild l with
      | none =>
          simp only [hc] at h
          obtain ⟨_, h2⟩ := deepFindGo_here_eq node l tl h
          simp [h2]
      | some c =>
          simp only [hc] at h
          cases hd : deepFindGo c tl with
          | none =>
              rw [hd, Option.none_or] at h
              obtain ⟨_, h2⟩ := deepFindGo_here_eq node l tl h
              simp [h2]
          | some pr =>
              rw [hd] at h
              simp only [Option.or_some, Option.some.injEq] at h
              subst h
              exact le_trans (ih c hd) (Nat.le_succ _)

theorem deepFindGo_sound (iter : List Labelette) (node : Node (Option Zone))
    {z : Zone} {rest : List Labelette}
    (h : deepFindGo node iter = some (z, rest)) :
    ∃ p, iter = p ++ rest ∧ node.valueAt p = some z := by
  induction iter generalizing node with
  | nil =>
      rw [deepFindGo_nil] at h
      cases hv : node.value with
      | none => simp only [hv] at h; exact absurd h (by simp)
      | some z' =>
          simp only [hv, Option.some.injEq, Prod.mk.injEq] at h
          exact ⟨[], by simp [← h.2],
                 by simp [Node.valueAt, Node.getNode, hv, h.1]⟩
  | cons l tl ih =>
      rw [deepFindGo_cons] at h
      cases hc : node.getChild l with
      | none =>
          simp only [hc] at h
          obtain ⟨h1, h2⟩ := deepFindGo_here_eq node l tl h
          exact ⟨[], by simp [h2],
                 by simp [Node.valueAt, Node.getNode, h1]⟩
      | some c =>
          simp only [hc] at h
          cases hd : deepFindGo c tl with
          | none =>
              rw [hd, Option.none_or] at h
              obtain ⟨h1, h2⟩ := deepFindGo_here_eq node l tl h
              exact ⟨[], by simp [h2],
                     by simp [Node.valueAt, Node.getNode, h1]⟩
          | some pr =>
              rw [hd] at h
              simp only [Option.or_some, Option.some.injEq] at h
              subst h
              obtain ⟨p, hp1, hp2⟩ := ih c hd
              refine ⟨l :: p, by simp [hp1], ?_⟩
              rw [Node.valueAt_cons]
              simp only [hc]
              exact hp2

theorem deepFindGo_here (iter : List Labelette) (node : Node (Option Zone))
    {w : Zone} (hv : node.value = some w) :
    ∃ z rest, deepFindGo node iter = some (z, rest) ∧
      rest.length ≤ iter.length := by
  cases iter with
  | nil => exact ⟨w, [], by rw [deepFindGo_nil]; simp [hv], by simp⟩
  | cons l tl =>
      cases hc : node.getChild l with
      | none =>
          exact ⟨w, l :: tl,
                 by rw [deepFindGo_cons]; simp only [hc, hv], by simp⟩
      | some c =>
          cases hd : deepFindGo c tl with
          | none =>
              exact ⟨w, l :: tl,
                     by rw [deepFindGo_cons]
                        simp only [hc, hd, Option.none_or, hv],
                     by simp⟩
          | some pr =>
              obtain ⟨z', r'⟩ := pr
              refine ⟨z', r',
                      by rw [deepFindGo_cons]
                         simp only [hc, hd, Option.or_some], ?_⟩
              exact le_trans (deepFindGo_length tl c hd) (Nat.le_succ _)

theorem deepFindGo_complete (q : List Labelette)
    (node : Node (Option Zone)) (qr : List Labelette) {w : Zone}
    (hval : node.valueAt q = some w) :
    ∃ z rest, deepFindGo node (q ++ qr) = some (z, rest) ∧
      rest.length ≤ qr.length := by
  induction q generalizing node with
  | nil =>
      simp [Node.valueAt, Node.getNode] at hval
      obtain ⟨z, rest, h1, h2⟩ := deepFindGo_here qr node hval
      exact ⟨z, rest, h1, h2⟩
  | cons l q' ih =>
      rw [Node.valueAt_cons] at hval
      cases hc : node.getChild l with
      | none => simp only [hc] at hval; exact absurd hval (by simp)
      | some c =>
          simp only [hc] at hval
          obtain ⟨z, rest, h1, h2⟩ := ih c hval
          refine ⟨z, rest, ?_, h2⟩
          rw [List.cons_append, deepFindGo_cons]
          simp only [hc, h1, Option.or_some]

theorem findRoot_setRootList (c : Class) (n : Node (Option Zone))
    (l : List (Class × Node (Option Zone))) :
    findRoot c (setRootList c n l) = some n := by
  induction l with
  | nil => simp [setRootList, findRoot]
  | cons hd tl ih =>
      obtain ⟨c', n'⟩ := hd
      by_cases h : c' = c <;> simp [setRootList, findRoot, h, ih]

theorem root_setRoot (az : AuthoritativeZones) (c : Class)
    (n : Node (Option Zone)) : (az.setRoot c n).root c = some n := by
  by_cases h : c = Class.In <;>
    simp [setRoot, root, h, findRoot_setRootList]

/-- The zone installed at the exact position `p` below the root tree of
class `c`, `none` when the class has no root tree or the path or zone
is absent. -/
def zoneAt (az : AuthoritativeZones) (c : Class) (p : Name) : Option Zone :=
  match az.root c with
  | some r => r.valueAt p
  | none => none

end AuthoritativeZones

/-! ## Further supporting lemmas -/

theorem Records.findRt_setRt (rt : Rtype) (rs : RRset MasterRecordData)
    (l : List (Rtype × RRset MasterRecordData)) :
    findRt rt (setRt rt rs l) = some rs := by
  induction l with
  | nil => simp [setRt, findRt]
  | cons hd tl ih =>
      obtain ⟨rt', rs'⟩ := hd
      by_cases h : rt' = rt <;> simp [setRt, findRt, h, ih]

theorem queryLoop_of_getNode (p : List Labelette)
    {n m : Node (Option ZoneEntry)} (t : List Labelette) (rt : Rtype)
    (h : Node.getNode n p = some m) :
    queryLoop n (p ++ t) rt = queryLoop m t rt := by
  induction p generalizing n with
  | nil => simp [Node.getNode] at h; subst h; rfl
  | cons l rest ih =>
      simp only [Node.getNode] at h
      cases hc : n.getChild l with
      | none => simp only [hc] at h; exact absurd h (by simp)
      | some c =>
          simp only [hc] at h
          simp only [List.cons_append, queryLoop, hc]
          exact ih h

theorem Zone.addRecordAt_of_cut (ttl : Nat) (d : MasterRecordData)
    {m : Node (Option ZoneEntry)} {c : Cut}
    (h : m.value = some (.cut c)) :
    Zone.addRecordAt ttl d m = (.error (), m) := by
  unfold Zone.addRecordAt
  rw [h]

theorem Zone.addCutAt_of_auth {m : Node (Option ZoneEntry)} {recs : Records}
    (h : m.value = some (.authoritative recs)) :
    Zone.addCutAt m = (.error (), m) := by
  unfold Zone.addCutAt
  rw [h]

/-! ## The claims -/

/-- C2: with the zone containing a wildcard node `*.a` and no node
`b.a`, `query` on the labelettes of `b.a…` returns the wildcard node's
entry (its record set for the queried rtype) and consumes no further
labelettes once the wildcard is entered; with `b.a` present as an empty
non-terminal, the wildcard is not consulted and `query` returns
`Entry::Authoritative(None)`. -/
theorem claimC2 (z : Zone) (p : List Labelette) (m : Node (Option ZoneEntry))
    (b : List Nat) (rest : List Labelette) (rt : Rtype)
    (hm : Node.getNode z.data p = some m) :
    (∀ (w : Node (Option ZoneEntry)) (recs : Records),
       m.getChild (.normal b) = none →
       m.getChild (.normal [42]) = some w →
       w.value = some (.authoritative recs) →
       z.query (p ++ .normal b :: rest) rt =
         some (.authoritative (recs.get rt))) ∧
    (∀ nb : Node (Option ZoneEntry),
       m.getChild (.normal b) = some nb → nb.value = none →
       z.query (p ++ [.normal b]) rt = some (.authoritative none)) := by
  constructor
  · intro w recs hb hw hv
    rw [Zone.query, queryLoop_of_getNode p _ rt hm]
    simp only [queryLoop, hb, hw, entryAt, hv]
  · intro nb hb hv
    rw [Zone.query, queryLoop_of_getNode p _ rt hm]
    simp only [queryLoop, hb, entryAt, hv]

/-- The concrete zone used to witness C2: records at `*.a` and a record
at `c.b.a`, which makes `b.a` an empty non-terminal.  Labels are the
byte lists `[1]` (a), `[2]` (b), `[3]` (c); the wildcard label is
`[42]` (`b"*"`). -/
def zC2 : Zone :=
  ((Zone.new.add_record [.normal [1], .normal [42]] 5 ⟨1, 0⟩).2.add_record
    [.normal [1], .normal [2], .normal [3]] 5 ⟨1, 1⟩).2

/-- The node of `zC2` at `a`. -/
def mC2 : Node (Option ZoneEntry) :=
  (Node.getNode zC2.data [Labelette.normal [1]]).getD (Node.new none)

/-- The wildcard node of `zC2` below `a`. -/
def wC2 : Node (Option ZoneEntry) :=
  (mC2.getChild (.normal [42])).getD (Node.new none)

/-- The empty non-terminal node of `zC2` at `b.a`. -/
def nbC2 : Node (Option ZoneEntry) :=
  (mC2.getChild (.normal [2])).getD (Node.new none)

/-- Witness for C2 at the concrete zone `zC2`. -/
theorem claimC2_witness :
    zC2.query ([Labelette.normal [1]] ++ Labelette.normal [9] :: []) 1 =
      some (.authoritative ((Records.mk [(1, ⟨5, [⟨1, 0⟩]⟩)]).get 1)) ∧
    zC2.query ([Labelette.normal [1]] ++ [Labelette.normal [2]]) 1 =
      some (.authoritative none) :=
  ⟨(claimC2 zC2 [.normal [1]] mC2 [9] [] 1 rfl).1 wC2 ⟨[(1, ⟨5, [⟨1, 0⟩]⟩)]⟩
     rfl rfl rfl,
   (claimC2 zC2 [.normal [1]] mC2 [2] [] 1 rfl).2 nbC2 rfl rfl⟩

/-- C8: a node holds at most one `ZoneEntry` variant and is never
converted: `add_record` on a node whose entry is a `Cut` fails
(CutConflict) leaving the `Cut` in place, and `add_cut` on a node whose
entry is `Authoritative` fails (AuthConflict) leaving the
`Authoritative` entry in place. -/
theorem claimC8 (z : Zone) (name : Name) (ttl : Nat)
    (d : MasterRecordData) :
    (∀ c : Cut, z.data.valueAt name = some (.cut c) →
       (z.add_record name ttl d).1 = .error () ∧
       (z.add_record name ttl d).2.data.valueAt name = some (.cut c)) ∧
    (∀ recs : Records, z.data.valueAt name = some (.authoritative recs) →
       (z.add_cut name).1 = .error () ∧
       (z.add_cut name).2.data.valueAt name = some (.authoritative recs)) := by
  constructor
  · intro c hc
    have hg : ∃ m, Node.getNode z.data name = some m ∧
        m.value = some (.cut c) := by
      unfold Node.valueAt at hc
      cases hg : Node.getNode z.data name with
      | none => rw [hg] at hc; exact absurd hc (by simp)
      | some m => rw [hg] at hc; exact ⟨m, rfl, hc⟩
    obtain ⟨m, hm, hv⟩ := hg
    have hr := Node.reach_of_getNode (none : Option ZoneEntry) name hm
    have hb := Node.getNode_buildApply none (Zone.addRecordAt ttl d) name
                 z.data
    rw [hr, Zone.addRecordAt_of_cut ttl d hv] at hb
    constructor
    · show (Node.buildApply none (Zone.addRecordAt ttl d) z.data name).1 =
        .error ()
      rw [Node.buildApply_fst, hr, Zone.addRecordAt_of_cut ttl d hv]
    · show Node.valueAt
        (Node.buildApply none (Zone.addRecordAt ttl d) z.data name).2 name =
        some (.cut c)
      exact (Node.valueAt_of_getNode hb).trans hv
  · intro recs hrec
    have hg : ∃ m, Node.getNode z.data name = some m ∧
        m.value = some (.authoritative recs) := by
      unfold Node.valueAt at hrec
      cases hg : Node.getNode z.data name with
      | none => rw [hg] at hrec; exact absurd hrec (by simp)
      | some m => rw [hg] at hrec; exact ⟨m, rfl, hrec⟩
    obtain ⟨m, hm, hv⟩ := hg
    have hr := Node.reach_of_getNode (none : Option ZoneEntry) name hm
    have hb := Node.getNode_buildApply none Zone.addCutAt name z.data
    rw [hr, Zone.addCutAt_of_auth hv] at hb
    constructor
    · show (Node.buildApply none Zone.addCutAt z.data name).1 = .error ()
      rw [Node.buildApply_fst, hr, Zone.addCutAt_of_auth hv]
    · show Node.valueAt
        (Node.buildApply none Zone.addCutAt z.data name).2 name =
        some (.authoritative recs)
      exact (Node.valueAt_of_getNode hb).trans hv

/-- The concrete zone used to witness C8: a cut at label `[1]` and
authoritative records at label `[2]`. -/
def zC8 : Zone :=
  ((Zone.new.add_cut [.normal [1]]).2.add_record [.normal [2]] 5 ⟨1, 0⟩).2

/-- Witness for C8 at the concrete zone `zC8`. -/
theorem claimC8_witness :
    ((zC8.add_record [Labelette.normal [1]] 5 ⟨1, 0⟩).1 = .error () ∧
     (zC8.add_record [Labelette.normal [1]] 5 ⟨1, 0⟩).2.data.valueAt
       [Labelette.normal [1]] = some (.cut Cut.new)) ∧
    ((zC8.add_cut [Labelette.normal [2]]).1 = .error () ∧
     (zC8.add_cut [Labelette.normal [2]]).2.data.valueAt
       [Labelette.normal [2]] =
       some (.authoritative ⟨[(1, ⟨5, [⟨1, 0⟩]⟩)]⟩)) :=
  ⟨(claimC8 zC8 [.normal [1]] 5 ⟨1, 0⟩).1 Cut.new rfl,
   (claimC8 zC8 [.normal [2]] 5 ⟨1, 0⟩).2 ⟨[(1, ⟨5, [⟨1, 0⟩]⟩)]⟩ rfl⟩

/-- Counterexample to C5 as stated: when the first insertion carries
`ttl = 0`, the stored TTL is the unset sentinel `0`, so a second
insertion with the different TTL `7200` does NOT fail with TtlMismatch —
it succeeds (and the first record is retained with TTL `0` until
then). -/
theorem claimC5_counterexample :
    (Records.new.add_record 0 ⟨1, 0⟩).2.get 1 = some ⟨0, [⟨1, 0⟩]⟩ ∧
    ((Records.new.add_record 0 ⟨1, 0⟩).2.add_record 7200 ⟨1, 1⟩).1 =
      .ok () := ⟨rfl, rfl⟩

/-- C5 (amended): the first insertion via `Records::add_record` sets the
RRset's TTL; a subsequent insertion with a TTL different from the
stored one fails with TtlMismatch *provided the stored TTL is nonzero*
(zero is the unset sentinel), and on that failure the RRset is
unchanged; in particular, after inserting records with TTLs 3600 then
7200, the second insert fails and the RRset retains only the first
record with TTL 3600. -/
theorem claimC5 :
    (∀ (t : Nat) (d : MasterRecordData),
       Records.new.add_record t d = (.ok (), ⟨[(d.rtype, ⟨t, [d]⟩)]⟩)) ∧
    (∀ (recs : Records) (rs : RRset MasterRecordData) (t : Nat)
       (d : MasterRecordData),
       recs.get d.rtype = some rs → rs.ttl ≠ 0 → t ≠ rs.ttl →
       (recs.add_record t d).1 = .error () ∧
       (recs.add_record t d).2.get d.rtype = some rs) ∧
    (((Records.new.add_record 3600 ⟨1, 0⟩).2.add_record 7200 ⟨1, 1⟩).1 =
       .error () ∧
     ((Records.new.add_record 3600 ⟨1, 0⟩).2.add_record 7200 ⟨1, 1⟩).2.get 1 =
       some ⟨3600, [⟨1, 0⟩]⟩) := by
  have h1 : ∀ (t : Nat) (d : MasterRecordData),
      Records.new.add_record t d = (.ok (), ⟨[(d.rtype, ⟨t, [d]⟩)]⟩) :=
    fun _ _ => rfl
  have h3a : ((Records.new.add_record 3600 ⟨1, 0⟩).2.add_record 7200
      ⟨1, 1⟩).1 = .error () := rfl
  have h3b : ((Records.new.add_record 3600 ⟨1, 0⟩).2.add_record 7200
      ⟨1, 1⟩).2.get 1 = some ⟨3600, [⟨1, 0⟩]⟩ := rfl
  refine ⟨h1, ?_, h3a, h3b⟩
  intro recs rs t d hget h0 ht
  unfold Records.add_record
  simp only [Records.get] at hget
  simp only [hget, Option.getD_some, if_neg h0, if_pos (Ne.symm ht)]
  simp [Records.get, Records.findRt_setRt]

/-- Witness for the hypothesis-bearing part of C5 at a concrete map
holding an RRset with TTL 3600. -/
theorem claimC5_witness :
    ((Records.mk [(1, ⟨3600, [⟨1, 0⟩]⟩)]).add_record 7200 ⟨1, 1⟩).1 =
      .error () ∧
    ((Records.mk [(1, ⟨3600, [⟨1, 0⟩]⟩)]).add_record 7200 ⟨1, 1⟩).2.get 1 =
      some ⟨3600, [⟨1, 0⟩]⟩ :=
  claimC5.2.1 ⟨[(1, ⟨3600, [⟨1, 0⟩]⟩)]⟩ ⟨3600, [⟨1, 0⟩]⟩ 7200 ⟨1, 1⟩ rfl
    (by decide) (by decide)

/-- C9 (implicit): when the first record inserted into an RRset carries
`ttl = 0`, the RRset's TTL remains the unset sentinel, so a later
insertion with any different TTL `t` does not fail with TtlMismatch but
succeeds and retroactively sets the whole RRset's TTL — now covering
the earlier record as well — to `t`. -/
theorem claimC9 (d0 d1 : MasterRecordData) (t : Nat)
    (hrt : d1.rtype = d0.rtype) (ht : t ≠ 0) :
    (Records.new.add_record 0 d0).2.get d0.rtype = some ⟨0, [d0]⟩ ∧
    ((Records.new.add_record 0 d0).2.add_record t d1).1 = .ok () ∧
    ((Records.new.add_record 0 d0).2.add_record t d1).2.get d0.rtype =
      some ⟨t, [d0, d1]⟩ := by
  have h1 : (Records.new.add_record 0 d0).2 =
      ⟨[(d0.rtype, ⟨0, [d0]⟩)]⟩ := rfl
  rw [h1]
  refine ⟨by simp [Records.get, Records.findRt], ?_, ?_⟩ <;>
    simp [Records.add_record, Records.get, Records.findRt, Records.setRt,
          RRset.push, hrt]

/-- Witness for C9: rtype 1, first TTL 0, second TTL 7200. -/
theorem claimC9_witness :
    (Records.new.add_record 0 ⟨1, 0⟩).2.get 1 = some ⟨0, [⟨1, 0⟩]⟩ ∧
    ((Records.new.add_record 0 ⟨1, 0⟩).2.add_record 7200 ⟨1, 1⟩).1 =
      .ok () ∧
    ((Records.new.add_record 0 ⟨1, 0⟩).2.add_record 7200 ⟨1, 1⟩).2.get 1 =
      some ⟨7200, [⟨1, 0⟩, ⟨1, 1⟩]⟩ :=
  claimC9 ⟨1, 0⟩ ⟨1, 1⟩ 7200 rfl (by decide)

/-- When the `next_record` loop surfaces an error, the scanner field of
the resulting reader is `None` (the source's `self.scanner = None`). -/
theorem Master.nextRecordGo_error (xs : List (Except Master.ScanErr Master.RawEntry))
    (o : Option Name) (t : Option Nat) (l : Option (Name × Class))
    (e : Master.ScanErr)
    (h : (Master.Reader.nextRecordGo o t l xs).1 = .error e) :
    (Master.Reader.nextRecordGo o t l xs).2.scanner = none := by
  induction xs generalizing o t l with
  | nil => simp [Master.Reader.nextRecordGo] at h
  | cons x rest ih =>
      cases x with
      | error e' => rfl
      | ok raw =>
          simp only [Master.Reader.nextRecordGo] at h ⊢
          cases hs : Master.scanEntry raw (l.map Prod.fst) (l.map Prod.snd)
              o t with
          | error e' => rfl
          | ok entry =>
              rw [hs] at h
              cases entry with
              | origin o' => exact ih _ _ _ h
              | ttl t' => exact ih _ _ _ h
              | includeE p o' => simp at h
              | control => exact ih _ _ _ h
              | record rec => simp at h
              | blank => exact ih _ _ _ h

/-- A reader whose scanner is gone answers end-of-stream and is left
unchanged (the `None` arm of `next_entry`, surfaced by the loop). -/
theorem Master.next_record_of_scanner_none (r : Master.Reader)
    (h : r.scanner = none) : r.next_record = (.ok none, r) := by
  unfold Master.Reader.next_record
  rw [h]

/-- C6: if `Reader::next_record` returns an error, the scanner is
dropped, and every subsequent call to `next_record` — and hence the
iterator's `next` — yields end-of-stream; the returned reader is a
fixed point, so this holds for all subsequent calls. -/
theorem claimC6 (r : Master.Reader) (e : Master.ScanErr)
    (h : r.next_record.1 = .error e) :
    r.next_record.2.scanner = none ∧
    r.next_record.2.next_record = (.ok none, r.next_record.2) ∧
    r.next_record.2.next = (none, r.next_record.2) := by
  have hs : r.next_record.2.scanner = none := by
    unfold Master.Reader.next_record at h ⊢
    cases hsc : r.scanner with
    | none => rw [hsc] at h; simp at h
    | some xs =>
        rw [hsc] at h
        exact Master.nextRecordGo_error xs _ _ _ e h
  have hnr := Master.next_record_of_scanner_none _ hs
  exact ⟨hs, hnr, by unfold Master.Reader.next; rw [hnr]⟩

/-- Witness for C6: a scanner whose first output is an error. -/
theorem claimC6_witness :
    (Master.Reader.mk (some [.error (.raw 0)]) none none
        none).next_record.2.scanner = none ∧
    (Master.Reader.mk (some [.error (.raw 0)]) none none
        none).next_record.2.next_record =
      (.ok none,
       (Master.Reader.mk (some [.error (.raw 0)]) none none
          none).next_record.2) ∧
    (Master.Reader.mk (some [.error (.raw 0)]) none none
        none).next_record.2.next =
      (none,
       (Master.Reader.mk (some [.error (.raw 0)]) none none
          none).next_record.2) :=
  claimC6 (Master.Reader.mk (some [.error (.raw 0)]) none none none)
    (.raw 0) rfl

/-- C7: when the top reader yields `Include { path, origin }`, the
include path is resolved relative to the including file's directory,
the opened reader (with the include's origin set) is pushed on top of
the otherwise untouched stack — so its records appear next, inline —
and, concretely, `/etc/zones/zone.txt` including `sub/extra.txt` opens
`/etc/zones/sub/extra.txt`; when the top reader ends, the stack is
popped and iteration continues on exactly the outer stack, whose
readers (origin, default TTL, last owner/class) are untouched. -/
theorem claimC7 :
    (∀ (fs : Master.Fs) (fuel : Nat) (nm : Master.FsPath)
       (r r' : Master.Reader) (path : List String) (origin : Option Name)
       (rest : Master.FRIStack)
       (content : List (Except Master.ScanErr Master.RawEntry)),
       r.next_record = (.ok (some (.includeI path origin)), r') →
       Master.openFile fs (nm.dropLast ++ path) = some content →
       Master.friNext fs (fuel + 1) ((nm, r) :: rest) =
         Master.friNext fs fuel
           ((nm.dropLast ++ path,
             Master.Reader.mk (some content) origin none none) ::
            (nm, r') :: rest)) ∧
    ((["etc", "zones", "zone.txt"] : Master.FsPath).dropLast ++
       ["sub", "extra.txt"] = ["etc", "zones", "sub", "extra.txt"]) ∧
    (∀ (fs : Master.Fs) (fuel : Nat) (nm : Master.FsPath)
       (r r' : Master.Reader) (rest : Master.FRIStack),
       r.next_record = (.ok none, r') →
       Master.friNext fs (fuel + 1) ((nm, r) :: rest) =
         Master.friNext fs fuel rest) := by
  refine ⟨?_, rfl, ?_⟩
  · intro fs fuel nm r r' path origin rest content h1 h2
    conv_lhs => rw [Master.friNext]
    simp only [h1, h2]
    rfl
  · intro fs fuel nm r r' rest h1
    conv_lhs => rw [Master.friNext]
    simp only [h1]

/-- The tiny filesystem used to witness C7 and C10: the top file
includes `inc.txt` from its own directory. -/
def fsC7 : Master.Fs := [(["a", "inc.txt"], [])]

/-- The top-file reader used to witness C7 and C10: its scanner yields
one `$INCLUDE inc.txt` entry (no origin argument). -/
def rC7 : Master.Reader :=
  ⟨some [.ok (.includeE ["inc.txt"] none)], none, none, none⟩

/-- Witness for C7 at the concrete filesystem `fsC7`. -/
theorem claimC7_witness :
    (Master.friNext fsC7 2 [(["a", "top.txt"], rC7)] =
       Master.friNext fsC7 1
         [(["a", "inc.txt"], Master.Reader.mk (some []) none none none),
          (["a", "top.txt"],
           Master.Reader.mk (some []) none none none)]) ∧
    (Master.friNext fsC7 2
       [(["a", "inc.txt"], Master.Reader.mk (some []) none none none)] =
       Master.friNext fsC7 1 []) :=
  ⟨claimC7.1 fsC7 1 ["a", "top.txt"] rC7
     (Master.Reader.mk (some []) none none none) ["inc.txt"] none [] []
     rfl rfl,
   claimC7.2.2 fsC7 1 ["a", "inc.txt"]
     (Master.Reader.mk (some []) none none none)
     (Master.Reader.mk (some []) none none none) [] rfl⟩

/-- C10 (implicit): an `$INCLUDE` with no origin argument pushes a
reader whose origin is `None` — it does not inherit the including
reader's current `$ORIGIN` — so a record with a relative owner in the
included file fails (`relNoOrigin`) until the included file sets its
own `$ORIGIN`, after which relative owners resolve against it. -/
theorem claimC10 :
    (∀ (fs : Master.Fs) (fuel : Nat) (nm : Master.FsPath)
       (r r' : Master.Reader) (path : List String) (rest : Master.FRIStack)
       (content : List (Except Master.ScanErr Master.RawEntry)),
       r.next_record = (.ok (some (.includeI path none)), r') →
       Master.openFile fs (nm.dropLast ++ path) = some content →
       Master.friNext fs (fuel + 1) ((nm, r) :: rest) =
         Master.friNext fs fuel
           ((nm.dropLast ++ path,
             Master.Reader.mk (some content) none none none) ::
            (nm, r') :: rest)) ∧
    (∀ (rn : Name) (cl : Option Class) (t : Option Nat)
       (rd : MasterRecordData)
       (rest : List (Except Master.ScanErr Master.RawEntry))
       (t0 : Option Nat) (l0 : Option (Name × Class)),
       (Master.Reader.mk
          (some (.ok (.recordE (some (.rel rn)) cl t rd) :: rest))
          none t0 l0).next_record =
         (.error .relNoOrigin, ⟨none, none, t0, l0⟩)) ∧
    (∀ (o rn : Name) (cl : Option Class) (t : Nat)
       (rd : MasterRecordData)
       (rest : List (Except Master.ScanErr Master.RawEntry))
       (t0 : Option Nat),
       (Master.Reader.mk
          (some (.ok (.originE o) ::
                 .ok (.recordE (some (.rel rn)) cl (some t) rd) :: rest))
          none t0 none).next_record =
         (.ok (some (.record ⟨o ++ rn, cl.getD Class.In, t, rd⟩)),
          ⟨some rest, some o, t0, some (o ++ rn, cl.getD Class.In)⟩)) := by
  refine ⟨?_, fun rn cl t rd rest t0 l0 => rfl,
          fun o rn cl t rd rest t0 => rfl⟩
  intro fs fuel nm r r' path rest content h1 h2
  conv_lhs => rw [Master.friNext]
  simp only [h1, h2]
  rfl

/-- Witness for C10: the push from `fsC7`/`rC7` carries origin `None`;
a relative-owner record with no origin errors; after `$ORIGIN [1]` the
same record resolves to owner `[1] ++ [2]`. -/
theorem claimC10_witness :
    (Master.friNext fsC7 2 [(["a", "top.txt"], rC7)] =
       Master.friNext fsC7 1
         [(["a", "inc.txt"], Master.Reader.mk (some []) none none none),
          (["a", "top.txt"],
           Master.Reader.mk (some []) none none none)]) ∧
    ((Master.Reader.mk
        (some [.ok (.recordE (some (.rel [.normal [2]])) none (some 3)
                      ⟨1, 0⟩)])
        none none none).next_record =
      (.error .relNoOrigin, ⟨none, none, none, none⟩)) ∧
    ((Master.Reader.mk
        (some [.ok (.originE [.normal [1]]),
               .ok (.recordE (some (.rel [.normal [2]])) none (some 3)
                      ⟨1, 0⟩)])
        none none none).next_record =
      (.ok (some (.record ⟨[Labelette.normal [1], Labelette.normal [2]],
                           (none : Option Class).getD Class.In, 3, ⟨1, 0⟩⟩)),
       ⟨some [], some [.normal [1]], none,
        some ([Labelette.normal [1], Labelette.normal [2]],
              (none : Option Class).getD Class.In)⟩)) :=
  ⟨claimC10.1 fsC7 1 ["a", "top.txt"] rC7
     (Master.Reader.mk (some []) none none none) ["inc.txt"] [] [] rfl rfl,
   claimC10.2.1 [.normal [2]] none (some 3) ⟨1, 0⟩ [] none none,
   claimC10.2.2 [.normal [1]] [.normal [2]] none 3 ⟨1, 0⟩ [] none⟩

/-- C3 (evaluation at the failing input): `add_zone` reaches its apex
node through `Node::build_node`, which consumes the root-first
labelette iterator with `next_back()` — leaf-most labelette first — so
for the two-labelette name `[1].[2]` (post-root list
`[normal [1], normal [2]]`) the zone is installed at the REVERSED path
`[2] → [1]` below the class root.  `find`, which walks the same
iterator front-to-back, then returns `None` for that very name instead
of the installed zone with an empty remainder, refuting the claim; the
third conjunct shows where the zone actually went. -/
theorem claimC3_code_bug :
    ((AuthoritativeZones.new.add_zone
        (revLabelettes [.normal [1], .normal [2]]) Class.In Zone.new).1 =
       .ok ()) ∧
    ((AuthoritativeZones.new.add_zone
        (revLabelettes [.normal [1], .normal [2]]) Class.In
        Zone.new).2.find Class.In
        (revLabelettes [.normal [1], .normal [2]]) = none) ∧
    ((AuthoritativeZones.new.add_zone
        (revLabelettes [.normal [1], .normal [2]]) Class.In
        Zone.new).2.zoneAt Class.In [.normal [2], .normal [1]] =
       some Zone.new) :=
  ⟨rfl, rfl, rfl⟩

/-- The tree state used to witness C4: `Zone.new` installed at the
positions `[1]` and `[1] → [2]` of the IN root (written as a literal —
C4 characterises `find` over arbitrary tree states). -/
def azC4 : AuthoritativeZones :=
  ⟨.mk none
     [([1], .mk (some Zone.new)
              [([2], .mk (some Zone.new) [] none none)] none none)]
     none none,
   []⟩

/-- C4: `find(c, n)` returns the zone installed at the longest suffix
of `n` (in root-first labelette order: the longest prefix), positioned
immediately past that apex, and `None` when no suffix of `n` carries a
zone — including when the class has no root tree, in which case
`zoneAt` is `None` everywhere. -/
theorem claimC4 (az : AuthoritativeZones) (c : Class) (n : Name) :
    (∀ (z : Zone) (rest : List Labelette),
       az.find c (revLabelettes n) = some (z, rest) →
       ∃ p, n = p ++ rest ∧ az.zoneAt c p = some z ∧
         ∀ (q qr : List Labelette) (w : Zone), n = q ++ qr →
           az.zoneAt c q = some w → q.length ≤ p.length) ∧
    (az.find c (revLabelettes n) = none →
       ∀ (q qr : List Labelette) (w : Zone), n = q ++ qr →
         az.zoneAt c q = some w → False) := by
  have hfind : az.find c (revLabelettes n) =
      match az.root c with
      | some node => AuthoritativeZones.findLoop node n none
      | none => none := rfl
  cases hroot : az.root c with
  | none =>
      rw [hroot] at hfind
      constructor
      · intro z rest hsome
        rw [hfind] at hsome
        exact absurd hsome (by simp)
      · intro _ q qr w _ hz
        rw [AuthoritativeZones.zoneAt, hroot] at hz
        exact absurd hz (by simp)
  | some rootN =>
      simp only [hroot] at hfind
      rw [AuthoritativeZones.findLoop_eq, Option.or_none] at hfind
      have hzoneAt : ∀ p, az.zoneAt c p = rootN.valueAt p := by
        intro p
        rw [AuthoritativeZones.zoneAt, hroot]
      constructor
      · intro z rest hsome
        rw [hfind] at hsome
        obtain ⟨p, hp1, hp2⟩ :=
          AuthoritativeZones.deepFindGo_sound n rootN hsome
        refine ⟨p, hp1, by rw [hzoneAt]; exact hp2, ?_⟩
        intro q qr w hq hw
        rw [hzoneAt] at hw
        obtain ⟨z', rest', hfound, hlen⟩ :=
          AuthoritativeZones.deepFindGo_complete q rootN qr hw
        rw [← hq] at hfound
        rw [hsome] at hfound
        have : rest = rest' := by
          have := Option.some_inj.mp hfound
          exact (congrArg Prod.snd this)
        subst this
        have hlen2 : p.length + rest.length = q.length + qr.length := by
          rw [← List.length_append, ← List.length_append, ← hp1, ← hq]
        omega
      · intro hnone q qr w hq hw
        rw [hfind] at hnone
        rw [hzoneAt] at hw
        obtain ⟨z', rest', hfound, _⟩ :=
          AuthoritativeZones.deepFindGo_complete q rootN qr hw
        rw [← hq, hnone] at hfound
        exact absurd hfound (by simp)

/-- Witness for C4: in `azC4`, looking up `[3].[2].[1]` finds the
deeper zone at position `[1] → [2]` with one labelette remaining. -/
theorem claimC4_witness :
    ∃ p, ([.normal [1], .normal [2], .normal [3]] : Name) =
        p ++ [Labelette.normal [3]] ∧
      azC4.zoneAt Class.In p = some Zone.new ∧
      ∀ (q qr : List Labelette) (w : Zone),
        ([.normal [1], .normal [2], .normal [3]] : Name) = q ++ qr →
        azC4.zoneAt Class.In q = some w → q.length ≤ p.length :=
  (claimC4 azC4 Class.In [.normal [1], .normal [2], .normal [3]]).1
    Zone.new [.normal [3]] rfl

/-- The record stream used for C1: one well-scanned record whose owner
(the name `[9]`) is not under the zone name `[1]`. -/
def recsC1 : List (Except Master.FRIError MasterRecord) :=
  [.ok ⟨[.normal [9]], Class.In, 7, ⟨1, 0⟩⟩]

/-- The record stream for the second C1 evaluation: two records at the
zone apex whose TTLs differ, so the second `Zone::add_record` fails
with TtlMismatch inside the load. -/
def recsC1b : List (Except Master.FRIError MasterRecord) :=
  [.ok ⟨[.normal [1]], Class.In, 3600, ⟨1, 0⟩⟩,
   .ok ⟨[.normal [1]], Class.In, 7200, ⟨1, 1⟩⟩]

/-- C1 (evaluation at the failing inputs): `load_zone` hits the
`// XXX push error` arms — a record whose owner is not a suffix of the
zone name, and a record on which `Zone::add_record` fails — without
recording any error, so it returns `Ok` and installs the zone anyway:
an empty zone in the first case, and a zone retaining only the first
record in the second.  The claim (and the spec) say such a load is
rejected and nothing is installed. -/
theorem claimC1_code_bug :
    ((AuthoritativeZones.new.load_zone [Labelette.normal [1]] Class.In
        recsC1).1 = .ok () ∧
     (AuthoritativeZones.new.load_zone [Labelette.normal [1]] Class.In
        recsC1).2.find Class.In (revLabelettes [Labelette.normal [1]]) =
       some (Zone.new, [])) ∧
    ((AuthoritativeZones.new.load_zone [Labelette.normal [1]] Class.In
        recsC1b).1 = .ok () ∧
     (AuthoritativeZones.new.load_zone [Labelette.normal [1]] Class.In
        recsC1b).2.zoneAt Class.In [Labelette.normal [1]] =
       some ⟨.mk (some (.authoritative ⟨[(1, ⟨3600, [⟨1, 0⟩]⟩)]⟩))
               [] none none⟩) :=
  ⟨⟨rfl, rfl⟩, ⟨rfl, rfl⟩⟩

end Domain
